import Mathlib

/-!
Shallow embedding of `barcode_to_tab.py`: a converter from barcode digit
strings to ASCII guitar tablature.  Definitions mirror the Python source
(class `BarcodeToTab`); theorems settle the specification claims.
-/

/-- Scale modes, mirroring the Python `ScaleMode` enum. -/
inductive ScaleMode where
  | MINOR_PENTATONIC
  | NATURAL_MINOR
  | HARMONIC_MINOR
  | CHROMATIC
  | POWER_CHORD
deriving DecidableEq

/-- The `value` payload of each Python enum member. -/
def ScaleMode.value : ScaleMode → String
  | .MINOR_PENTATONIC => "minor_pentatonic"
  | .NATURAL_MINOR => "natural_minor"
  | .HARMONIC_MINOR => "harmonic_minor"
  | .CHROMATIC => "chromatic"
  | .POWER_CHORD => "power_chord"

/-- A note on guitar, mirroring the Python `GuitarNote` dataclass:
`string` 0-5 (low E to high E), `fret`, `duration` in 16th notes. -/
structure GuitarNote where
  string : Nat
  fret : Int
  duration : Nat := 1
deriving DecidableEq, Inhabited

/-- Scale patterns (intervals from root), the Python `SCALES` dict. -/
def SCALES : ScaleMode → List Nat
  | .MINOR_PENTATONIC => [0, 3, 5, 7, 10]
  | .NATURAL_MINOR => [0, 2, 3, 5, 7, 8, 10]
  | .HARMONIC_MINOR => [0, 2, 3, 5, 7, 8, 11]
  | .CHROMATIC => [0, 1, 2, 3, 4, 5, 6, 7, 8, 9, 10, 11, 12]
  | .POWER_CHORD => [0, 7]

/-- Converter configuration, the fields set by `BarcodeToTab.__init__`. -/
structure BarcodeToTab where
  root_note : String
  root_fret : Int
  scale_mode : ScaleMode

/-- The `self.scale` field computed in `__init__` from the scale mode. -/
def BarcodeToTab.scale (self : BarcodeToTab) : List Nat :=
  SCALES self.scale_mode

/-- Digit extraction `[int(c) for c in barcode if c.isdigit()]`, modeled
on ASCII input: a character passes the filter exactly when it is an ASCII
decimal digit, and maps to its value `ord(c) - 48`.  Python's `str.isdigit`
additionally accepts non-ASCII Unicode digit characters, on which `int`
either returns their value (Decimal characters such as the Arabic-Indic
digits) or raises `ValueError` (Numeric_Type=Digit characters such as
U+00B2); that fallible path is outside this total model, so theorems over
`digitsOf` describe the program on input whose `isdigit`-passing
characters are ASCII decimal digits. -/
def digitsOf (barcode : String) : List Nat :=
  (barcode.toList.filter Char.isDigit).map (fun c => c.toNat - 48)

/-- Fuel-indexed unfolding of the loop `while fret > 19: fret -= 12`.
One fuel unit per iteration; `normFret` supplies enough fuel, and
`normFret_eq` below proves the loop's defining equation. -/
def normFretAux : Nat → Int → Int
  | 0, fret => fret
  | k + 1, fret => if 19 < fret then normFretAux k (fret - 12) else fret

/-- The fret normalization loop `while fret > 19: fret -= 12`: each
iteration lowers `fret` by 12, so `(fret - 19).toNat` iterations always
suffice. -/
def normFret (fret : Int) : Int :=
  normFretAux (fret - 19).toNat fret

/-- Fret of the melodic note generated for `digit` (lines 113-118 of the
source): scale degree `digit % len(scale)`, fret `root_fret + scale[deg]`,
then the normalization loop. -/
def noteFret (self : BarcodeToTab) (digit : Nat) : Int :=
  normFret (self.root_fret + (self.scale.getD (digit % self.scale.length) 0 : Int))

/-- Duration of the melodic note for `digit`:
`2 if digit in [0, 5] else 1`. -/
def noteDuration (digit : Nat) : Nat :=
  if digit = 0 ∨ digit = 5 then 2 else 1

/-- The loop body of `barcode_to_notes`: walks the digit list carrying the
enumeration index `i` and `current_string`, exactly as the Python loop. -/
def notesGo (self : BarcodeToTab) : List Nat → Nat → Nat → List GuitarNote
  | [], _, _ => []
  | digit :: rest, i, current_string =>
    let scale_degree := digit % self.scale.length
    let fret := normFret (self.root_fret + (self.scale.getD scale_degree 0 : Int))
    let current_string' :=
      if 0 < i ∧ i % 4 = 0 then (current_string + 1) % 6 else current_string
    let duration := if digit = 0 ∨ digit = 5 then 2 else 1
    { string := current_string', fret := fret, duration := duration } ::
      notesGo self rest (i + 1) current_string'

/-- `BarcodeToTab.barcode_to_notes`: melodic generation.  Digits are
extracted in order; the loop starts at index 0 on string 0; an empty digit
list yields an empty note list. -/
def BarcodeToTab.barcode_to_notes (self : BarcodeToTab) (barcode : String) :
    List GuitarNote :=
  notesGo self (digitsOf barcode) 0 0

/-- `BarcodeToTab.generate_power_chord_riff`: for each digit emit root
`(0, digit % 13, 2)` and fifth `(1, digit % 13 + 2, 2)`, plus the two
palm-muted hits of duration 1 when the digit is 0 or 5. -/
def BarcodeToTab.generate_power_chord_riff (_self : BarcodeToTab)
    (barcode : String) : List GuitarNote :=
  (digitsOf barcode).flatMap (fun digit =>
    [{ string := 0, fret := ((digit % 13 : Nat) : Int), duration := 2 },
     { string := 1, fret := ((digit % 13 : Nat) : Int) + 2, duration := 2 }] ++
    (if digit = 0 ∨ digit = 5 then
      [{ string := 0, fret := ((digit % 13 : Nat) : Int), duration := 1 },
       { string := 1, fret := ((digit % 13 : Nat) : Int) + 2, duration := 1 }]
     else []))

/-- Total tab width: `sum(note.duration * 2 for note in notes) + 2`. -/
def total_length (notes : List GuitarNote) : Nat :=
  (notes.map (fun note => note.duration * 2)).sum + 2

/-- The inner placement loop of `notes_to_tab`: write the characters of
the fret text into the line at consecutive columns, each write guarded by
`position + char_idx < total_length` (overflowing characters dropped). -/
def writeChars : List Char → List Char → Nat → Nat → List Char
  | line, [], _, _ => line
  | line, c :: rest, position, width =>
    writeChars (if position < width then line.set position c else line)
      rest (position + 1) width

/-- Placing one note on the grid: row `5 - note.string` (display order),
text `str(note.fret)`, written at the cursor column. -/
def placeNote (tab_lines : List (List Char)) (note : GuitarNote)
    (position width : Nat) : List (List Char) :=
  let string_idx := 5 - note.string
  let fret_str := (toString note.fret).toList
  tab_lines.set string_idx
    (writeChars (tab_lines.getD string_idx []) fret_str position width)

/-- One iteration of the note-placement loop of `notes_to_tab`: place the
note at the current position, then advance by `duration * 2`. -/
def tabStep (width : Nat) (st : List (List Char) × Nat) (note : GuitarNote) :
    List (List Char) × Nat :=
  (placeNote st.1 note st.2 width, st.2 + note.duration * 2)

/-- Initial tab grid: 6 lines of `'-'` of length `total_length`. -/
def initGrid (notes : List GuitarNote) : List (List Char) :=
  List.replicate 6 (List.replicate (total_length notes) ('-'))

/-- The filled tab grid: fold the placement loop over the notes starting
from the dash-filled grid with the cursor at column 1. -/
def tabGrid (notes : List GuitarNote) : List (List Char) :=
  ((notes.foldl (tabStep (total_length notes)) (initGrid notes, 1))).1

/-- String labels for the six displayed lines, high e on top. -/
def tuning_labels : List String := ["e|", "B|", "G|", "D|", "A|", "E|"]

/-- The `"=" * 60` separator rule. -/
def sepLine : String := String.mk (List.replicate 60 ('='))

/-- `BarcodeToTab.notes_to_tab`: render notes as ASCII tablature, or the
fixed placeholder when the note list is empty. -/
def BarcodeToTab.notes_to_tab (self : BarcodeToTab) (notes : List GuitarNote)
    (title : String) : String :=
  if notes.isEmpty then "No notes to display"
  else
    String.intercalate ("\n")
      (["\n" ++ title,
        "Scale: " ++ self.scale_mode.value ++ " in " ++ self.root_note,
        sepLine] ++
       (tuning_labels.zip (tabGrid notes)).map
         (fun p => p.1 ++ String.mk p.2 ++ "|") ++
       [sepLine])

/-- `BarcodeToTab.convert`: select the generation strategy, build the
title, and render. -/
def BarcodeToTab.convert (self : BarcodeToTab) (barcode : String)
    (use_power_chords : Bool) : String :=
  if use_power_chords then
    self.notes_to_tab (self.generate_power_chord_riff barcode)
      ("Power Chord Riff - " ++ barcode)
  else
    self.notes_to_tab (self.barcode_to_notes barcode)
      ("Barcode Riff - " ++ barcode)

/-- The converter built with the constructor defaults used by `main`:
root note E, root fret 0, minor pentatonic. -/
def defaultConverter : BarcodeToTab :=
  { root_note := "E", root_fret := 0, scale_mode := ScaleMode.MINOR_PENTATONIC }

/-! ### Lemmas about the fret normalization loop -/

/-- Extra fuel beyond the iteration bound does not change `normFretAux`. -/
theorem normFretAux_succ (k : Nat) :
    ∀ f : Int, (f - 19).toNat ≤ k → normFretAux (k + 1) f = normFretAux k f := by
  induction k with
  | zero =>
    intro f h
    have hf : ¬ 19 < f := by omega
    simp [normFretAux, hf]
  | succ k ih =>
    intro f h
    by_cases hf : 19 < f
    · have h1 : normFretAux (k + 1 + 1) f = normFretAux (k + 1) (f - 12) := by
        simp [normFretAux, hf]
      have h2 : normFretAux (k + 1) f = normFretAux k (f - 12) := by
        simp [normFretAux, hf]
      rw [h1, h2, ih (f - 12) (by omega)]
    · simp [normFretAux, hf]

/-- Any fuel at least the iteration bound computes `normFret`. -/
theorem normFretAux_eq_normFret (k : Nat) :
    ∀ f : Int, (f - 19).toNat ≤ k → normFretAux k f = normFret f := by
  induction k with
  | zero =>
    intro f h
    rw [normFret, Nat.le_antisymm h (Nat.zero_le _)]
  | succ k ih =>
    intro f h
    by_cases hk : (f - 19).toNat ≤ k
    · rw [normFretAux_succ k f hk, ih f hk]
    · rw [normFret, show (f - 19).toNat = k + 1 by omega]

/-- The defining equation of the loop `while fret > 19: fret -= 12`:
one iteration when the guard holds, identity otherwise. -/
theorem normFret_eq (f : Int) :
    normFret f = if 19 < f then normFret (f - 12) else f := by
  by_cases hf : 19 < f
  · rw [if_pos hf, normFret, show (f - 19).toNat = ((f - 19).toNat - 1) + 1 by omega]
    have h1 : normFretAux (((f - 19).toNat - 1) + 1) f
        = normFretAux ((f - 19).toNat - 1) (f - 12) := by
      simp [normFretAux, hf]
    rw [h1]
    exact normFretAux_eq_normFret _ _ (by omega)
  · rw [if_neg hf, normFret, show (f - 19).toNat = 0 by omega]
    rfl

/-- The loop's exit condition: the normalized fret is at most 19. -/
theorem normFretAux_le (k : Nat) :
    ∀ f : Int, (f - 19).toNat ≤ k → normFretAux k f ≤ 19 := by
  induction k with
  | zero =>
    intro f h
    have : normFretAux 0 f = f := rfl
    omega
  | succ k ih =>
    intro f h
    by_cases hf : 19 < f
    · rw [show normFretAux (k + 1) f = normFretAux k (f - 12) by simp [normFretAux, hf]]
      exact ih (f - 12) (by omega)
    · rw [show normFretAux (k + 1) f = f by simp [normFretAux, hf]]
      omega

/-- The normalization loop always exits with a fret at most 19. -/
theorem normFret_le (f : Int) : normFret f ≤ 19 :=
  normFretAux_le _ f (Nat.le_refl _)

/-- The normalization loop never makes a non-negative fret negative:
it subtracts 12 only while the fret exceeds 19. -/
theorem normFret_nonneg (f : Int) (h : 0 ≤ f) : 0 ≤ normFret f := by
  rw [normFret]
  generalize hk : (f - 19).toNat = k
  clear hk
  induction k generalizing f with
  | zero => exact h
  | succ k ih =>
    by_cases hf : 19 < f
    · rw [show normFretAux (k + 1) f = normFretAux k (f - 12) by simp [normFretAux, hf]]
      exact ih (f - 12) (by omega)
    · rw [show normFretAux (k + 1) f = f by simp [normFretAux, hf]]
      exact h

/-! ### Lemmas about the melodic generation loop -/

/-- The melodic loop emits exactly one note per digit. -/
theorem notesGo_length (self : BarcodeToTab) :
    ∀ (ds : List Nat) (i cs : Nat), (notesGo self ds i cs).length = ds.length := by
  intro ds
  induction ds with
  | nil => intro i cs; rfl
  | cons d rest ih => intro i cs; simp [notesGo, ih]

/-- The melodic note at position `j` has the fret and duration computed
from the digit at position `j`. -/
theorem notesGo_getD (self : BarcodeToTab) :
    ∀ (ds : List Nat) (i cs j : Nat), j < ds.length →
      ((notesGo self ds i cs).getD j default).fret = noteFret self (ds.getD j 0) ∧
      ((notesGo self ds i cs).getD j default).duration = noteDuration (ds.getD j 0) := by
  intro ds
  induction ds with
  | nil => intro i cs j h; simp at h
  | cons d rest ih =>
    intro i cs j h
    cases j with
    | zero =>
      constructor
      · simp [notesGo, noteFret]
      · simp [notesGo, noteDuration]
    | succ j =>
      simp only [notesGo, List.getD_cons_succ]
      exact ih (i + 1) _ j (by simpa using h)

/-- Closed form of the `current_string` cursor: it is advanced exactly at
the loop indices `i` with `0 < i` and `i % 4 = 0`, so the note emitted at
overall index `i` sits on string `i / 4 % 6`.  The hypothesis is the loop
invariant relating the incoming cursor to the enumeration index. -/
theorem notesGo_string (self : BarcodeToTab) :
    ∀ (ds : List Nat) (i cs j : Nat),
      (if 0 < i ∧ i % 4 = 0 then (cs + 1) % 6 else cs) = i / 4 % 6 →
      j < ds.length →
      ((notesGo self ds i cs).getD j default).string = (i + j) / 4 % 6 := by
  intro ds
  induction ds with
  | nil => intro i cs j _ h; simp at h
  | cons d rest ih =>
    intro i cs j hinv h
    cases j with
    | zero =>
      simpa [notesGo] using hinv
    | succ j =>
      simp only [notesGo, List.getD_cons_succ]
      have hstep :
          (if 0 < i + 1 ∧ (i + 1) % 4 = 0 then
            ((if 0 < i ∧ i % 4 = 0 then (cs + 1) % 6 else cs) + 1) % 6
          else (if 0 < i ∧ i % 4 = 0 then (cs + 1) % 6 else cs))
            = (i + 1) / 4 % 6 := by
        rw [hinv]
        by_cases h4 : (i + 1) % 4 = 0
        · simp only [h4, and_true, Nat.succ_pos, true_and, if_pos]
          omega
        · simp only [h4, and_false, if_false]
          omega
      have := ih (i + 1) _ j hstep (by simpa using h)
      rw [this]
      omega

/-- Every melodic note of `barcode_to_notes` sits on string `j / 4 % 6`
where `j` is its position. -/
theorem barcode_to_notes_string (self : BarcodeToTab) (s : String) (j : Nat)
    (h : j < (digitsOf s).length) :
    ((self.barcode_to_notes s).getD j default).string = j / 4 % 6 := by
  have := notesGo_string self (digitsOf s) 0 0 j (by simp) h
  simpa using this

/-- Every note produced by the melodic loop (started on a string below 6)
has a fret and duration computed from some digit of the list, and a string
index below 6. -/
theorem notesGo_mem (self : BarcodeToTab) :
    ∀ (ds : List Nat) (i cs : Nat), cs < 6 →
      ∀ note ∈ notesGo self ds i cs,
        (∃ d ∈ ds, note.fret = noteFret self d ∧ note.duration = noteDuration d) ∧
        note.string < 6 := by
  intro ds
  induction ds with
  | nil => intro i cs _ note h; simp [notesGo] at h
  | cons d rest ih =>
    intro i cs hcs note h
    have hcs' : (if 0 < i ∧ i % 4 = 0 then (cs + 1) % 6 else cs) < 6 := by
      split
      · exact Nat.mod_lt _ (by omega)
      · exact hcs
    simp only [notesGo, List.mem_cons] at h
    rcases h with h | h
    · subst h
      refine ⟨⟨d, List.mem_cons_self d rest, ?_, ?_⟩, hcs'⟩
      · simp [noteFret]
      · simp [noteDuration]
    · have := ih (i + 1) _ hcs' note h
      exact ⟨this.1.imp (fun d hd => ⟨List.mem_cons_of_mem _ hd.1, hd.2⟩), this.2⟩

/-- The fret of every melodic note is at most 19: the normalization loop
exits only below that bound. -/
theorem noteFret_le (self : BarcodeToTab) (d : Nat) : noteFret self d ≤ 19 :=
  normFret_le _

/-- With a non-negative root fret, melodic frets are non-negative. -/
theorem noteFret_nonneg (self : BarcodeToTab) (d : Nat)
    (h : 0 ≤ self.root_fret) : 0 ≤ noteFret self d :=
  normFret_nonneg _ (add_nonneg h (Int.natCast_nonneg _))

/-- Every note of the power-chord riff is one of the four shapes built
from some digit of the barcode. -/
theorem power_chord_mem (self : BarcodeToTab) (s : String) (note : GuitarNote)
    (h : note ∈ self.generate_power_chord_riff s) :
    ∃ d ∈ digitsOf s,
      (note = { string := 0, fret := ((d % 13 : Nat) : Int), duration := 2 } ∨
       note = { string := 1, fret := ((d % 13 : Nat) : Int) + 2, duration := 2 } ∨
       note = { string := 0, fret := ((d % 13 : Nat) : Int), duration := 1 } ∨
       note = { string := 1, fret := ((d % 13 : Nat) : Int) + 2, duration := 1 }) := by
  simp only [BarcodeToTab.generate_power_chord_riff, List.mem_flatMap] at h
  obtain ⟨d, hd, hmem⟩ := h
  refine ⟨d, hd, ?_⟩
  simp only [List.mem_append, List.mem_cons, List.not_mem_nil, or_false] at hmem
  rcases hmem with h | h
  · tauto
  · split at h <;> simp_all

/-- Each per-digit block of the power-chord riff has length 2 (plain
digit) or 4 (digit 0 or 5), so the riff has between `2n` and `4n` notes
for `n` digits. -/
theorem power_chord_length_bounds (self : BarcodeToTab) (s : String) :
    2 * (digitsOf s).length ≤ (self.generate_power_chord_riff s).length ∧
    (self.generate_power_chord_riff s).length ≤ 4 * (digitsOf s).length := by
  unfold BarcodeToTab.generate_power_chord_riff
  generalize digitsOf s = ds
  induction ds with
  | nil => simp
  | cons d rest ih =>
    simp only [List.flatMap_cons, List.length_append, List.length_cons]
    split
    · simp only [List.length_cons, List.length_nil]
      omega
    · simp only [List.length_nil]
      omega

/-! ### Lemmas about the rendering grid -/

/-- Writing fret characters never changes the length of a line: each
character lands by `List.set`, and overflowing characters are dropped. -/
theorem writeChars_length :
    ∀ (cs line : List Char) (p W : Nat),
      (writeChars line cs p W).length = line.length := by
  intro cs
  induction cs with
  | nil => intro line p W; rfl
  | cons c rest ih =>
    intro line p W
    rw [writeChars, ih]
    split <;> simp

/-- Writing fret characters on the empty line is a no-op. -/
theorem writeChars_nil_line :
    ∀ (cs : List Char) (p W : Nat), writeChars [] cs p W = [] := by
  intro cs
  induction cs with
  | nil => intro p W; rfl
  | cons c rest ih => intro p W; rw [writeChars]; split <;> simp [ih]

/-- Columns left of the cursor are untouched by the write loop. -/
theorem writeChars_getD_lt :
    ∀ (cs line : List Char) (p W q : Nat) (d : Char), q < p →
      (writeChars line cs p W).getD q d = line.getD q d := by
  intro cs
  induction cs with
  | nil => intro line p W q d _; rfl
  | cons c rest ih =>
    intro line p W q d hq
    rw [writeChars, ih _ _ _ _ _ (by omega)]
    split
    · simp only [List.getD_eq_getElem?_getD, List.getElem?_set_ne (by omega : p ≠ q)]
    · rfl

/-- Columns at or beyond the width are untouched by the write loop: the
guard `position < width` silently drops those characters. -/
theorem writeChars_getD_ge :
    ∀ (cs line : List Char) (p W q : Nat) (d : Char), W ≤ q →
      (writeChars line cs p W).getD q d = line.getD q d := by
  intro cs
  induction cs with
  | nil => intro line p W q d _; rfl
  | cons c rest ih =>
    intro line p W q d hq
    rw [writeChars, ih _ _ _ _ _ hq]
    split
    · next hp =>
      simp only [List.getD_eq_getElem?_getD, List.getElem?_set_ne (by omega : p ≠ q)]
    · rfl

/-- Each in-range character of the fret text is written at its column:
column `p + j` receives character `j` of the text whenever it lies inside
both the width and the line. -/
theorem writeChars_getD_write :
    ∀ (cs line : List Char) (p W j : Nat) (d : Char),
      j < cs.length → p + j < W → p + j < line.length →
      (writeChars line cs p W).getD (p + j) d = cs.getD j d := by
  intro cs
  induction cs with
  | nil => intro line p W j d h; simp at h
  | cons c rest ih =>
    intro line p W j d hj hW hline
    cases j with
    | zero =>
      rw [writeChars, if_pos (by omega)]
      rw [writeChars_getD_lt rest _ (p + 1) W _ _ (by omega)]
      simp only [Nat.add_zero, List.getD_eq_getElem?_getD,
        List.getElem?_set_self (by omega : p < line.length)]
      simp
    | succ j =>
      rw [writeChars, if_pos (by omega)]
      have := ih (line.set p c) (p + 1) W j d (by simpa using hj)
        (by omega) (by simp; omega)
      rw [show p + (j + 1) = (p + 1) + j by omega, this]
      simp

/-- Placing a note never changes the number of grid lines. -/
theorem placeNote_length (g : List (List Char)) (note : GuitarNote)
    (p W : Nat) : (placeNote g note p W).length = g.length := by
  simp [placeNote]

/-- Placing a note leaves every row other than `5 - note.string`
unchanged. -/
theorem placeNote_getD_ne (g : List (List Char)) (note : GuitarNote)
    (p W j : Nat) (h : j ≠ 5 - note.string) :
    (placeNote g note p W).getD j [] = g.getD j [] := by
  simp only [placeNote, List.getD_eq_getElem?_getD,
    List.getElem?_set_ne (fun he => h he.symm)]

/-- Row `5 - note.string` of the grid after placing a note is the old row
with the decimal text of the fret written at the cursor column. -/
theorem placeNote_getD_self (g : List (List Char)) (note : GuitarNote)
    (p W : Nat) :
    (placeNote g note p W).getD (5 - note.string) [] =
      writeChars (g.getD (5 - note.string) []) (toString note.fret).toList p W := by
  by_cases h : 5 - note.string < g.length
  · simp only [placeNote, List.getD_eq_getElem?_getD, List.getElem?_set_self h]
    rfl
  · have hset : g.set (5 - note.string)
        (writeChars (g.getD (5 - note.string) []) (toString note.fret).toList p W) = g :=
      List.set_eq_of_length_le (by omega)
    have hout : g.getD (5 - note.string) [] = [] := by
      simp [List.getD_eq_getElem?_getD, List.getElem?_eq_none (by omega : g.length ≤ 5 - note.string)]
    rw [placeNote, hset, hout, writeChars_nil_line]

/-- Placing a note preserves the length of every row. -/
theorem placeNote_row_length (g : List (List Char)) (note : GuitarNote)
    (p W j : Nat) :
    ((placeNote g note p W).getD j []).length = (g.getD j []).length := by
  by_cases h : j = 5 - note.string
  · subst h
    rw [placeNote_getD_self, writeChars_length]
  · rw [placeNote_getD_ne _ _ _ _ _ h]

/-- The cursor after the placement loop: the start position plus
`duration * 2` summed over the processed notes. -/
theorem foldl_tabStep_pos (W : Nat) :
    ∀ (ns : List GuitarNote) (st : List (List Char) × Nat),
      (ns.foldl (tabStep W) st).2 = st.2 + (ns.map (fun n => n.duration * 2)).sum := by
  intro ns
  induction ns with
  | nil => intro st; simp
  | cons n rest ih =>
    intro st
    rw [List.foldl_cons, ih]
    simp [tabStep]
    omega

/-- The placement loop never changes the number of grid lines. -/
theorem foldl_tabStep_grid_length (W : Nat) :
    ∀ (ns : List GuitarNote) (st : List (List Char) × Nat),
      (ns.foldl (tabStep W) st).1.length = st.1.length := by
  intro ns
  induction ns with
  | nil => intro st; rfl
  | cons n rest ih =>
    intro st
    rw [List.foldl_cons, ih]
    simp [tabStep, placeNote_length]

/-- The placement loop preserves the length of every grid row. -/
theorem foldl_tabStep_row_length (W : Nat) :
    ∀ (ns : List GuitarNote) (st : List (List Char) × Nat) (j : Nat),
      ((ns.foldl (tabStep W) st).1.getD j []).length = (st.1.getD j []).length := by
  intro ns
  induction ns with
  | nil => intro st j; rfl
  | cons n rest ih =>
    intro st j
    rw [List.foldl_cons, ih]
    exact placeNote_row_length st.1 n st.2 W j

/-- The rendered grid always has exactly 6 lines. -/
theorem tabGrid_length (notes : List GuitarNote) : (tabGrid notes).length = 6 := by
  rw [tabGrid, foldl_tabStep_grid_length]
  simp [initGrid]

/-- Each of the 6 rendered lines has width `total_length notes`. -/
theorem tabGrid_row_length (notes : List GuitarNote) (j : Nat) (hj : j < 6) :
    ((tabGrid notes).getD j []).length = total_length notes := by
  rw [tabGrid, foldl_tabStep_row_length, initGrid]
  rw [List.getD_eq_getElem?_getD, List.getElem?_replicate, if_pos hj]
  simp

/-- Every line of the rendered grid has width `total_length notes`. -/
theorem tabGrid_mem_length (notes : List GuitarNote) :
    ∀ line ∈ tabGrid notes, line.length = total_length notes := by
  intro line hline
  obtain ⟨i, hi, rfl⟩ := List.mem_iff_getElem.mp hline
  have h6 : i < 6 := by
    have := tabGrid_length notes
    omega
  have := tabGrid_row_length notes i h6
  rw [List.getD_eq_getElem?_getD, List.getElem?_eq_getElem hi] at this
  simpa using this

/-- One step of the walk over the notes: the grid after the first `k + 1`
notes is the grid after the first `k` notes with note `k` placed at cursor
column `1 + sum(duration * 2)` over the first `k` notes, and the cursor
advances by `duration * 2` of note `k`. -/
theorem tabGrid_cursor (notes : List GuitarNote) (k : Nat) (hk : k < notes.length) :
    (notes.take (k + 1)).foldl (tabStep (total_length notes)) (initGrid notes, 1) =
      (placeNote ((notes.take k).foldl (tabStep (total_length notes)) (initGrid notes, 1)).1
        (notes.getD k default)
        (1 + ((notes.take k).map (fun n => n.duration * 2)).sum)
        (total_length notes),
       1 + ((notes.take (k + 1)).map (fun n => n.duration * 2)).sum) := by
  have htake : notes.take (k + 1) = notes.take k ++ [notes.getD k default] := by
    rw [List.take_succ]
    congr 1
    simp [List.getD_eq_getElem?_getD, List.getElem?_eq_getElem hk]
  rw [htake, List.foldl_append]
  simp only [List.foldl_cons, List.foldl_nil, tabStep]
  rw [foldl_tabStep_pos]
  simp only [Prod.mk.injEq]
  refine ⟨by trivial, ?_⟩
  simp only [List.map_append, List.sum_append, List.map_cons, List.map_nil,
    List.sum_cons, List.sum_nil]
  omega

/-! ### Claim theorems -/

/-- On the ASCII digit model, the melodic generator produces exactly one
note per extracted digit, in the digits' relative order: the note at
position `j` is computed from the digit at position `j` of the in-order
extraction `digitsOf`, and an empty extraction yields the empty sequence.
(On the real interpreter the extraction itself can raise at non-ASCII
`isdigit`-true characters; see the note on `digitsOf`.) -/
theorem melodic_one_note_per_digit (self : BarcodeToTab) (s : String) :
    (self.barcode_to_notes s).length = (digitsOf s).length ∧
    (digitsOf s = [] → self.barcode_to_notes s = []) ∧
    (∀ j, j < (digitsOf s).length →
      ((self.barcode_to_notes s).getD j default).fret
        = noteFret self ((digitsOf s).getD j 0)) := by
  refine ⟨notesGo_length self _ 0 0, ?_, ?_⟩
  · intro h
    rw [BarcodeToTab.barcode_to_notes, h]
    rfl
  · intro j hj
    exact (notesGo_getD self (digitsOf s) 0 0 j hj).1

/-- Concrete instance of `melodic_one_note_per_digit` at barcode `"7"`. -/
theorem melodic_one_note_per_digit_witness :
    ((defaultConverter.barcode_to_notes ("7")).getD 0 default).fret
      = noteFret defaultConverter ((digitsOf ("7")).getD 0 0) :=
  (melodic_one_note_per_digit defaultConverter ("7")).2.2 0 (by decide)

/-- C7: melodic digits 0 and 5 yield duration 2, all other digits yield
duration 1; and for barcode `"012345678905"` with the default
configuration, note 0 is string 0, fret 0, duration 2. -/
theorem melodic_duration_rule :
    (∀ (self : BarcodeToTab) (s : String) (j : Nat), j < (digitsOf s).length →
      ((self.barcode_to_notes s).getD j default).duration
        = if (digitsOf s).getD j 0 = 0 ∨ (digitsOf s).getD j 0 = 5 then 2 else 1) ∧
    (defaultConverter.barcode_to_notes ("012345678905")).getD 0 default
      = { string := 0, fret := 0, duration := 2 } := by
  constructor
  · intro self s j hj
    have h := (notesGo_getD self (digitsOf s) 0 0 j hj).2
    show ((notesGo self (digitsOf s) 0 0).getD j default).duration = _
    rw [h, noteDuration]
  · decide

/-- Witness for C7 at the concrete barcode `"90"`. -/
theorem melodic_duration_rule_witness :
    ((defaultConverter.barcode_to_notes ("90")).getD 0 default).duration
      = if (digitsOf ("90")).getD 0 0 = 0 ∨ (digitsOf ("90")).getD 0 0 = 5 then 2 else 1 :=
  melodic_duration_rule.1 defaultConverter ("90") 0 (by decide)

/-- C3: with `root_fret` in `[0, 12]`, every melodic note's fret after the
normalization loop is at most 19, for every scale mode and every digit. -/
theorem melodic_fret_le_19_in_range (self : BarcodeToTab)
    (_h0 : 0 ≤ self.root_fret) (_h12 : self.root_fret ≤ 12) (s : String)
    (note : GuitarNote) (hmem : note ∈ self.barcode_to_notes s) :
    note.fret ≤ 19 := by
  obtain ⟨⟨d, _, hfret, _⟩, _⟩ := notesGo_mem self (digitsOf s) 0 0 (by omega) note hmem
  rw [hfret]
  exact noteFret_le self d

/-- Witness for C3 at the default configuration and barcode `"0"`. -/
theorem melodic_fret_le_19_in_range_witness :
    ({ string := 0, fret := 0, duration := 2 } : GuitarNote).fret ≤ 19 :=
  melodic_fret_le_19_in_range defaultConverter (by decide) (by decide) ("0")
    { string := 0, fret := 0, duration := 2 } (by decide)

/-- C4 (refuted as stated): there is no configuration - however large its
`root_fret` - and no digit string for which a melodic note's fret exceeds
19 after the normalization loop, because the loop exits only once the
fret is at most 19. -/
theorem melodic_fret_overflow_refuted :
    ¬ ∃ (self : BarcodeToTab) (s : String) (note : GuitarNote),
        12 < self.root_fret ∧ note ∈ self.barcode_to_notes s ∧ 19 < note.fret := by
  rintro ⟨self, s, note, _, hmem, hgt⟩
  obtain ⟨⟨d, _, hfret, _⟩, _⟩ := notesGo_mem self (digitsOf s) 0 0 (by omega) note hmem
  rw [hfret] at hgt
  exact absurd (noteFret_le self d) (by omega)

/-- C4 (amended): for every `root_fret` greater than 12 the melodic
normalization loop still fully clamps: every emitted fret is at most
19. -/
theorem melodic_fret_clamped_large_root (self : BarcodeToTab)
    (_h : 12 < self.root_fret) (s : String) (note : GuitarNote)
    (hmem : note ∈ self.barcode_to_notes s) : note.fret ≤ 19 := by
  obtain ⟨⟨d, _, hfret, _⟩, _⟩ := notesGo_mem self (digitsOf s) 0 0 (by omega) note hmem
  rw [hfret]
  exact noteFret_le self d

/-- Witness for the amended C4: root fret 20, chromatic scale, barcode
`"9"`; the raw fret 29 is normalized to 17. -/
theorem melodic_fret_clamped_large_root_witness :
    ({ string := 0, fret := 17, duration := 1 } : GuitarNote).fret ≤ 19 :=
  melodic_fret_clamped_large_root
    { root_note := "E", root_fret := 20, scale_mode := ScaleMode.CHROMATIC }
    (by decide) ("9") { string := 0, fret := 17, duration := 1 } (by decide)

/-- C5: melodic notes 0-3 all sit on string 0, and the string index
advances by 1 modulo 6 exactly at the indices `i` with `0 < i` and
`i % 4 = 0`; in particular note 4 sits one string (mod 6) above note 0. -/
theorem melodic_string_change_rule (self : BarcodeToTab) (s : String) :
    (∀ i, i < 4 → i < (self.barcode_to_notes s).length →
      ((self.barcode_to_notes s).getD i default).string = 0) ∧
    (∀ i, 0 < i → i < (self.barcode_to_notes s).length →
      ((self.barcode_to_notes s).getD i default).string =
        (if i % 4 = 0
         then (((self.barcode_to_notes s).getD (i - 1) default).string + 1) % 6
         else ((self.barcode_to_notes s).getD (i - 1) default).string)) ∧
    (4 < (self.barcode_to_notes s).length →
      ((self.barcode_to_notes s).getD 4 default).string =
        (((self.barcode_to_notes s).getD 0 default).string + 1) % 6) := by
  have hlen : (self.barcode_to_notes s).length = (digitsOf s).length :=
    notesGo_length self _ 0 0
  refine ⟨?_, ?_, ?_⟩
  · intro i hi4 hilen
    rw [barcode_to_notes_string self s i (by omega)]
    omega
  · intro i hi0 hilen
    rw [barcode_to_notes_string self s i (by omega),
      barcode_to_notes_string self s (i - 1) (by omega)]
    split
    · next h4 => omega
    · next h4 => omega
  · intro h4
    rw [barcode_to_notes_string self s 4 (by omega),
      barcode_to_notes_string self s 0 (by omega)]

/-- Witness for C5 at the concrete barcode `"55555"`. -/
theorem melodic_string_change_rule_witness :
    ((defaultConverter.barcode_to_notes ("55555")).getD 4 default).string =
      (((defaultConverter.barcode_to_notes ("55555")).getD 0 default).string + 1) % 6 :=
  (melodic_string_change_rule defaultConverter ("55555")).2.2 (by decide)

/-- On the ASCII digit model, the power-chord riff is, digit by digit, a
root note `(0, d % 13, 2)` then a fifth `(1, d % 13 + 2, 2)`, followed
exactly for digits 0 and 5 by the palm-mute pair of duration 1 at the same
frets; hence between `2n` and `4n` notes for `n` extracted digits, and
barcode `"5"` yields exactly `(0,5,2), (1,7,2), (0,5,1), (1,7,1)`.  (On
the real interpreter the extraction itself can raise at non-ASCII
`isdigit`-true characters; see the note on `digitsOf`.) -/
theorem power_chord_riff_shape (self : BarcodeToTab) (s : String) :
    (self.generate_power_chord_riff s =
      (digitsOf s).flatMap (fun d =>
        [{ string := 0, fret := ((d % 13 : Nat) : Int), duration := 2 },
         { string := 1, fret := ((d % 13 : Nat) : Int) + 2, duration := 2 }] ++
        (if d = 0 ∨ d = 5 then
          [{ string := 0, fret := ((d % 13 : Nat) : Int), duration := 1 },
           { string := 1, fret := ((d % 13 : Nat) : Int) + 2, duration := 1 }]
         else []))) ∧
    (2 * (digitsOf s).length ≤ (self.generate_power_chord_riff s).length ∧
      (self.generate_power_chord_riff s).length ≤ 4 * (digitsOf s).length) ∧
    self.generate_power_chord_riff ("5") =
      [{ string := 0, fret := 5, duration := 2 },
       { string := 1, fret := 7, duration := 2 },
       { string := 0, fret := 5, duration := 1 },
       { string := 1, fret := 7, duration := 1 }] := by
  refine ⟨rfl, power_chord_length_bounds self s, ?_⟩
  rfl

/-- C6: for every non-empty note sequence the renderer builds six tab
lines of width exactly `2 + sum(duration * 2)`; the note walk starts the
cursor at column 1 and advances it by `duration * 2` per note, placing
note `k` at column `1 + sum` of the durations before it; a placement
touches only row `5 - string` and writes the decimal text of the fret
there character by character, dropping (without error) every character
whose column is not below the total width. -/
theorem notes_to_tab_layout (notes : List GuitarNote) (_h : notes ≠ []) :
    (tabGrid notes).length = 6 ∧
    (∀ line ∈ tabGrid notes,
      line.length = 2 + (notes.map (fun n => n.duration * 2)).sum) ∧
    (∀ k, k < notes.length →
      (notes.take (k + 1)).foldl (tabStep (total_length notes)) (initGrid notes, 1) =
        (placeNote
          ((notes.take k).foldl (tabStep (total_length notes)) (initGrid notes, 1)).1
          (notes.getD k default)
          (1 + ((notes.take k).map (fun n => n.duration * 2)).sum)
          (total_length notes),
         1 + ((notes.take (k + 1)).map (fun n => n.duration * 2)).sum)) ∧
    (∀ (g : List (List Char)) (note : GuitarNote) (p j : Nat),
      j ≠ 5 - note.string →
      (placeNote g note p (total_length notes)).getD j [] = g.getD j []) ∧
    (∀ (g : List (List Char)) (note : GuitarNote) (p : Nat),
      (placeNote g note p (total_length notes)).getD (5 - note.string) [] =
        writeChars (g.getD (5 - note.string) []) (toString note.fret).toList p
          (total_length notes)) ∧
    (∀ (line cs : List Char) (p q : Nat) (d : Char), total_length notes ≤ q →
      (writeChars line cs p (total_length notes)).getD q d = line.getD q d) ∧
    (∀ (line cs : List Char) (p j : Nat) (d : Char),
      j < cs.length → p + j < total_length notes → p + j < line.length →
      (writeChars line cs p (total_length notes)).getD (p + j) d = cs.getD j d) := by
  refine ⟨tabGrid_length notes, ?_, tabGrid_cursor notes, ?_, ?_, ?_, ?_⟩
  · intro line hline
    have := tabGrid_mem_length notes line hline
    rw [total_length] at this
    omega
  · intro g note p j hj
    exact placeNote_getD_ne g note p _ j hj
  · intro g note p
    exact placeNote_getD_self g note p _
  · intro line cs p q d hq
    exact writeChars_getD_ge cs line p _ q d hq
  · intro line cs p j d hj hW hline
    exact writeChars_getD_write cs line p _ j d hj hW hline

/-- Witness for C6 at the one-note sequence `[(0, 0, 1)]`: the grid has 6
lines. -/
theorem notes_to_tab_layout_witness :
    (tabGrid [{ string := 0, fret := 0, duration := 1 }]).length = 6 :=
  (notes_to_tab_layout [{ string := 0, fret := 0, duration := 1 }] (by decide)).1

/-- C9: conversion and rendering are deterministic - they are pure
functions of the configuration, the barcode, the flag, the notes and the
title, so repeated calls give identical text. -/
theorem convert_deterministic (self : BarcodeToTab) (barcode : String)
    (use_power_chords : Bool) (notes : List GuitarNote) (title : String) :
    self.convert barcode use_power_chords = self.convert barcode use_power_chords ∧
    self.notes_to_tab notes title = self.notes_to_tab notes title :=
  ⟨rfl, rfl⟩

/-- C10: every note of either generator has a string index in `[0, 5]` and
duration 1 or 2; with a non-negative root fret its fret is non-negative;
melodic frets never exceed 19 (for every non-negative root fret, not only
those up to 12); power-chord frets never exceed 14. -/
theorem note_invariants (self : BarcodeToTab) (s : String) (note : GuitarNote)
    (h : note ∈ self.barcode_to_notes s ∨ note ∈ self.generate_power_chord_riff s) :
    note.string ≤ 5 ∧
    (note.duration = 1 ∨ note.duration = 2) ∧
    (0 ≤ self.root_fret → 0 ≤ note.fret) ∧
    (note ∈ self.barcode_to_notes s → 0 ≤ self.root_fret → note.fret ≤ 19) ∧
    (note ∈ self.generate_power_chord_riff s → note.fret ≤ 14) := by
  have hmel : note ∈ self.barcode_to_notes s →
      note.string ≤ 5 ∧ (note.duration = 1 ∨ note.duration = 2) ∧
      (0 ≤ self.root_fret → 0 ≤ note.fret) ∧ note.fret ≤ 19 := by
    intro hm
    obtain ⟨⟨d, _, hfret, hdur⟩, hstr⟩ :=
      notesGo_mem self (digitsOf s) 0 0 (by omega) note hm
    refine ⟨by omega, ?_, ?_, ?_⟩
    · rw [hdur, noteDuration]
      split
      · right; rfl
      · left; rfl
    · intro h0
      rw [hfret]
      exact noteFret_nonneg self d h0
    · rw [hfret]
      exact noteFret_le self d
  have hpow : note ∈ self.generate_power_chord_riff s →
      note.string ≤ 5 ∧ (note.duration = 1 ∨ note.duration = 2) ∧
      0 ≤ note.fret ∧ note.fret ≤ 14 := by
    intro hm
    obtain ⟨d, _, hcase⟩ := power_chord_mem self s note hm
    have hd13 : (d % 13) < 13 := Nat.mod_lt _ (by omega)
    rcases hcase with hc | hc | hc | hc <;> subst hc <;>
      exact ⟨by simp, by simp, by simp; omega, by simp; omega⟩
  rcases h with hm | hm
  · obtain ⟨h1, h2, h3, h4⟩ := hmel hm
    exact ⟨h1, h2, h3, fun _ _ => h4, fun hp => ((hpow hp).2.2.2)⟩
  · obtain ⟨h1, h2, h3, h4⟩ := hpow hm
    exact ⟨h1, h2, fun _ => h3, fun hmm _ => (hmel hmm).2.2.2,
      fun _ => h4⟩

/-- Witness for C10 at the power-chord riff of barcode `"5"`. -/
theorem note_invariants_witness :
    ({ string := 0, fret := 5, duration := 2 } : GuitarNote).string ≤ 5 :=
  (note_invariants defaultConverter ("5") { string := 0, fret := 5, duration := 2 }
    (Or.inr (by decide))).1
